import Mathlib

/-!
Verification of the cost-leakage detection and scoring engine
(`src/detector.py`, `src/scorer.py`) against its specification.

Shallow embedding conventions:

* A transaction (`Txn`) carries the typed fields used by the four detection
  rules.  Dates are modelled as integer day numbers (the CSV carries whole
  dates; `pandas` timestamp subtraction `.dt.days` on whole dates is exact
  integer day difference).  Monetary amounts are exact rationals.
* `numpy`/`pandas`/Python rounding (`Series.round`, built-in `round`) is
  round-half-to-even, modelled by `roundHalfEven` / `round2`.
* `df.sort_values` over a single column inside `detect_duplicates` and the
  multi-column lexicographic sort in the scorer are modelled with the stable
  `List.insertionSort` (pandas' multi-column sort is `lexsort`, which is
  stable).
* Presentational fields (`rule_detail` strings, log output) are omitted:
  no claim is about them.
* `rolling(...).std()` uses the pandas default `ddof = 1` (sample standard
  deviation).  To keep the spike test executable it is encoded without a
  square root: for `sigma ≥ 0`, `count > mean + sigma * sqrt(var)` is
  equivalent to `count - mean > 0 ∧ (count - mean)^2 > sigma^2 * var`;
  the bridge to the square-root form over `ℝ` is proved as part of the
  volume-spike theorem.
-/

namespace CostLeakage

/-- Round half to even to the nearest integer, as `numpy.round`
(`Series.round(0)`) and Python's built-in `round` do. -/
def roundHalfEven (q : ℚ) : ℤ :=
  if q - ⌊q⌋ < 1/2 then ⌊q⌋
  else if 1/2 < q - ⌊q⌋ then ⌊q⌋ + 1
  else if 2 ∣ ⌊q⌋ then ⌊q⌋ else ⌊q⌋ + 1

/-- Round to 2 decimal places (`round(x, 2)` / `Series.round(2)`). -/
def round2 (q : ℚ) : ℚ := (roundHalfEven (q * 100) : ℚ) / 100

/-- A validated transaction record (the typed columns of the DataFrame that
the rules read). -/
structure Txn where
  transaction_id : String
  date : ℤ
  supplier_id : String
  supplier_name : String
  category : String
  baseline_rate : ℚ
  invoice_amount : ℚ
  expected_delivery_date : ℤ
  actual_delivery_date : ℤ
deriving DecidableEq

/-- A rule flag: the flagged row plus the columns added by a rule
(`rule_triggered`, `leakage_amount_gbp`; the `rule_detail` string is
presentational and omitted). -/
structure Flag where
  txn : Txn
  rule_triggered : String
  leakage_amount_gbp : ℚ
deriving DecidableEq

/-! ### Rule 1: duplicate detection (`detect_duplicates`) -/

/-- `df["_amount_key"] = df["invoice_amount"].round(0)`. -/
def amountKey (t : Txn) : ℤ := roundHalfEven t.invoice_amount

/-- The groupby key: `(supplier_id, _amount_key)`. -/
def dupKey (t : Txn) : String × ℤ := (t.supplier_id, amountKey t)

/-- Date order used by `df.sort_values("date")`. -/
def dateLe (a b : Txn) : Prop := a.date ≤ b.date

instance : DecidableRel dateLe := fun a b => inferInstanceAs (Decidable (a.date ≤ b.date))

instance : IsTotal Txn dateLe := ⟨fun a b => le_total a.date b.date⟩

instance : IsTrans Txn dateLe := ⟨fun _ _ _ hab hbc => le_trans hab hbc⟩

/-- `df.sort_values("date")`, modelled as a stable ascending sort. -/
def sortByDate (l : List Txn) : List Txn := l.insertionSort dateLe

/-- The pair test applied inside a group: same groupby key and
`abs((dates[j] - dates[i]).days) <= window_days`. -/
def dupWithin (w : ℤ) (p t : Txn) : Prop :=
  dupKey p = dupKey t ∧ |t.date - p.date| ≤ w

instance (w : ℤ) (p t : Txn) : Decidable (dupWithin w p t) :=
  inferInstanceAs (Decidable (_ ∧ _))

/-- Walk the date-sorted list; a row is recorded in `flagged_ids` when some
strictly earlier row of the sorted list shares its group key and lies within
the window (the code's nested `i < j` loops over each group, which preserve
the sorted order). -/
def dupFlaggedIdsAux (w : ℤ) : List Txn → List Txn → List String
  | _, [] => []
  | prev, t :: rest =>
    if ∃ p ∈ prev, dupWithin w p t then
      t.transaction_id :: dupFlaggedIdsAux w (prev ++ [t]) rest
    else
      dupFlaggedIdsAux w (prev ++ [t]) rest

/-- The `flagged_ids` set collected by `detect_duplicates`. -/
def dupFlaggedIds (txns : List Txn) (w : ℤ) : List String :=
  dupFlaggedIdsAux w [] (sortByDate txns)

/-- Columns added to a flagged duplicate row:
`rule_triggered = "duplicate"`, `leakage_amount_gbp = invoice_amount`. -/
def mkDupFlag (t : Txn) : Flag := ⟨t, "duplicate", t.invoice_amount⟩

/-- `detect_duplicates(df, window_days)`: the rows of `df` (original order)
whose `transaction_id` is in `flagged_ids`, annotated. -/
def detect_duplicates (txns : List Txn) (window_days : ℤ) : List Flag :=
  (txns.filter fun t =>
    decide (t.transaction_id ∈ dupFlaggedIds txns window_days)).map mkDupFlag

/-! ### Rule 2: price variance (`detect_price_variance`) -/

/-- Columns added to a flagged overcharge row; leakage is
`(invoice_amount - baseline_rate * threshold).round(2)`. -/
def mkPriceFlag (threshold : ℚ) (t : Txn) : Flag :=
  ⟨t, "price_variance", round2 (t.invoice_amount - t.baseline_rate * threshold)⟩

/-- `detect_price_variance(df, threshold)`: mask is
`invoice_amount / baseline_rate > threshold`. -/
def detect_price_variance (txns : List Txn) (threshold : ℚ) : List Flag :=
  (txns.filter fun t =>
    decide (threshold < t.invoice_amount / t.baseline_rate)).map (mkPriceFlag threshold)

/-! ### Rule 3: SLA breach (`detect_sla_breaches`) -/

/-- `_breach_days = (actual_delivery_date - expected_delivery_date).dt.days - grace_days`. -/
def breachDays (grace_days : ℤ) (t : Txn) : ℤ :=
  (t.actual_delivery_date - t.expected_delivery_date) - grace_days

/-- Columns added to a flagged SLA-breach row; `PENALTY_PER_DAY_GBP = 150.0`
is a constant local to the rule. -/
def mkSlaFlag (grace_days : ℤ) (t : Txn) : Flag :=
  ⟨t, "sla_breach", round2 ((breachDays grace_days t : ℚ) * 150)⟩

/-- `detect_sla_breaches(df, grace_days)`: mask is `_breach_days > 0`. -/
def detect_sla_breaches (txns : List Txn) (grace_days : ℤ) : List Flag :=
  (txns.filter fun t => decide (0 < breachDays grace_days t)).map (mkSlaFlag grace_days)

/-! ### Rule 4: volume spike (`detect_volume_spikes`) -/

/-- The distinct transaction dates in ascending order (`df.groupby("date")`
keys, `sort_values("date")`). -/
def sortedDays (txns : List Txn) : List ℤ :=
  ((txns.map Txn.date).dedup).insertionSort (· ≤ ·)

/-- Number of transactions on day `d` (`groupby("date").size()`). -/
def dailyCount (txns : List Txn) (d : ℤ) : ℕ :=
  (txns.filter fun t => decide (t.date = d)).length

/-- The `daily_count` column, aligned with `sortedDays`. -/
def dailyCounts (txns : List Txn) : List ℚ :=
  (sortedDays txns).map fun d => (dailyCount txns d : ℚ)

/-- The prior counts visible to row `k` after `shift(1)` and a trailing
window of size `window`: the last `min k window` entries before position `k`
(entries shifted in from before the start are NaN and drop out of the
rolling aggregate). -/
def priorsAt (counts : List ℚ) (window : ℕ) (k : ℕ) : List ℚ :=
  (counts.take k).drop (k - window)

/-- Arithmetic mean (`rolling(...).mean()` over the non-NaN entries). -/
def listMean (l : List ℚ) : ℚ := l.sum / l.length

/-- Sample variance, `ddof = 1` (the square of pandas `rolling(...).std()`). -/
def listSampleVar (l : List ℚ) : ℚ :=
  ((l.map fun x => (x - listMean l) ^ 2).sum) / ((l.length : ℚ) - 1)

/-- Spike test at row `k`:
`min_periods=3` requires at least 3 prior entries, and the comparison
`daily_count > rolling_mean + sigma * rolling_std` is encoded square-root
free (equivalent for `sigma ≥ 0`; bridge proved below). -/
def spikeAt (counts : List ℚ) (sigma : ℚ) (window : ℕ) (k : ℕ) : Bool :=
  decide (3 ≤ (priorsAt counts window k).length) &&
  decide (listMean (priorsAt counts window k) < counts.getD k 0) &&
  decide (sigma ^ 2 * listSampleVar (priorsAt counts window k) <
    (counts.getD k 0 - listMean (priorsAt counts window k)) ^ 2)

/-- The `spike_days` series: dates whose row passes the spike test. -/
def spikeDates (txns : List Txn) (sigma : ℚ) (window : ℕ) : List ℤ :=
  ((List.range (sortedDays txns).length).filter fun k =>
      spikeAt (dailyCounts txns) sigma window k).map fun k => (sortedDays txns).getD k 0

/-- Columns added to a flagged spike row: leakage is fixed `0.0`. -/
def mkSpikeFlag (t : Txn) : Flag := ⟨t, "volume_spike", 0⟩

/-- `detect_volume_spikes(df, sigma_threshold, rolling_window)`:
`df[df["date"].isin(spike_days)]`, annotated. -/
def detect_volume_spikes (txns : List Txn) (sigma : ℚ) (rolling_window : ℕ) : List Flag :=
  (txns.filter fun t =>
    decide (t.date ∈ spikeDates txns sigma rolling_window)).map mkSpikeFlag

/-! ### Aggregation (`run_detection`) -/

/-- The deduplication key `(transaction_id, rule_triggered)`. -/
def flagKey (f : Flag) : String × String := (f.txn.transaction_id, f.rule_triggered)

/-- `drop_duplicates(subset=[...], keep="first")` with an accumulator of
keys already kept. -/
def dedupFlagsAux : List (String × String) → List Flag → List Flag
  | _, [] => []
  | seen, f :: rest =>
    if flagKey f ∈ seen then dedupFlagsAux seen rest
    else f :: dedupFlagsAux (flagKey f :: seen) rest

/-- `flagged.drop_duplicates(subset=["transaction_id", "rule_triggered"])`. -/
def dedupFlags (l : List Flag) : List Flag := dedupFlagsAux [] l

/-- The `detection` section of the configuration. -/
structure DetectionConfig where
  duplicate_window_days : ℤ
  price_variance_threshold : ℚ
  sla_grace_days : ℤ
  volume_spike_sigma : ℚ
  volume_rolling_window : ℕ

/-- The flag set produced by `run_detection`: concatenation of the four rule
outputs, deduplicated on `(transaction_id, rule_triggered)`. -/
def run_detection (txns : List Txn) (cfg : DetectionConfig) : List Flag :=
  dedupFlags
    (detect_duplicates txns cfg.duplicate_window_days ++
     detect_price_variance txns cfg.price_variance_threshold ++
     detect_sla_breaches txns cfg.sla_grace_days ++
     detect_volume_spikes txns cfg.volume_spike_sigma cfg.volume_rolling_window)

/-! ### Severity scoring (`scorer.py`) -/

/-- Severity labels. -/
inductive Severity where
  | Critical
  | High
  | Medium
  | Low
deriving DecidableEq

/-- `SEVERITY_ORDER = {"Critical": 4, "High": 3, "Medium": 2, "Low": 1}`. -/
def SEVERITY_ORDER : Severity → ℕ
  | .Critical => 4
  | .High => 3
  | .Medium => 2
  | .Low => 1

/-- The `financial_multipliers` configuration entry. -/
structure FinThresholds where
  low_threshold : ℚ
  medium_threshold : ℚ
  high_threshold : ℚ

/-- `_financial_impact_score(amount_gbp, thresholds)`. -/
def financialImpactScore (amount_gbp : ℚ) (th : FinThresholds) : ℚ :=
  if amount_gbp ≤ 0 then 0
  else if amount_gbp < th.low_threshold then
    round2 (5 + (amount_gbp / th.low_threshold) * 5)
  else if amount_gbp < th.medium_threshold then
    round2 (10 + ((amount_gbp - th.low_threshold) /
      (th.medium_threshold - th.low_threshold)) * 10)
  else if amount_gbp < th.high_threshold then
    round2 (20 + ((amount_gbp - th.medium_threshold) /
      (th.high_threshold - th.medium_threshold)) * 8)
  else 30

/-- The `severity_bands` configuration entry (the classifier reads only the
`critical`, `high` and `medium` cutoffs; `low` exists in the config but is
never read). -/
structure SeverityBands where
  critical : ℚ
  high : ℚ
  medium : ℚ

/-- `_classify_severity(score, bands)`: descending threshold comparison,
inclusive on each lower edge. -/
def classifySeverity (score : ℚ) (bands : SeverityBands) : Severity :=
  if bands.critical ≤ score then .Critical
  else if bands.high ≤ score then .High
  else if bands.medium ≤ score then .Medium
  else .Low

/-- The `scoring` section of the configuration; `rule_base_scores` is the
dict from rule identifier to base score. -/
structure ScoringConfig where
  rule_base_scores : List (String × ℚ)
  financial_multipliers : FinThresholds
  severity_bands : SeverityBands

/-- The fixed `action_map` advisory strings. -/
def actionRequired : Severity → String
  | .Critical => "IMMEDIATE: Escalate to Finance Director. Freeze supplier payments pending review."
  | .High => "TODAY: Assign to senior analyst for same-day investigation."
  | .Medium => "THIS WEEK: Add to weekly ops review. Request supplier clarification."
  | .Low => "MONITOR: Log for trend analysis. Review at end of month."

/-- A scored flag: the columns added by `score_flagged_transactions`. -/
structure ScoredFlag where
  flag : Flag
  base_score : ℚ
  financial_score : ℚ
  composite_score : ℚ
  severity : Severity
  severity_rank : ℕ
  action_required : String
deriving DecidableEq

/-- The per-row scoring transform:
`base_score = rule_base_scores.get(rule, 30)` (`map(...).fillna(30.0)`),
`composite_score = (base_score + financial_score).clip(upper=100)`. -/
def scoreOne (cfg : ScoringConfig) (f : Flag) : ScoredFlag :=
  let base := (cfg.rule_base_scores.lookup f.rule_triggered).getD 30
  let fs := financialImpactScore f.leakage_amount_gbp cfg.financial_multipliers
  let comp := min (base + fs) 100
  let sev := classifySeverity comp cfg.severity_bands
  ⟨f, base, fs, comp, sev, SEVERITY_ORDER sev, actionRequired sev⟩

/-- The final sort order: `severity_rank` descending, then
`leakage_amount_gbp` descending (`a` may precede `b` when this holds). -/
def scoredGE (a b : ScoredFlag) : Prop :=
  b.severity_rank < a.severity_rank ∨
    (b.severity_rank = a.severity_rank ∧
      b.flag.leakage_amount_gbp ≤ a.flag.leakage_amount_gbp)

instance : DecidableRel scoredGE := fun a b => by
  unfold scoredGE; infer_instance

instance : IsTotal ScoredFlag scoredGE := by
  constructor
  intro a b
  unfold scoredGE
  rcases lt_trichotomy a.severity_rank b.severity_rank with h | h | h
  · exact Or.inr (Or.inl h)
  · rcases le_total a.flag.leakage_amount_gbp b.flag.leakage_amount_gbp with h2 | h2
    · exact Or.inr (Or.inr ⟨h, h2⟩)
    · exact Or.inl (Or.inr ⟨h.symm, h2⟩)
  · exact Or.inl (Or.inl h)

instance : IsTrans ScoredFlag scoredGE := by
  constructor
  intro a b c hab hbc
  unfold scoredGE at *
  rcases hab with h1 | ⟨h1, h1'⟩ <;> rcases hbc with h2 | ⟨h2, h2'⟩
  · exact Or.inl (h2.trans h1)
  · exact Or.inl (lt_of_eq_of_lt h2 h1)
  · exact Or.inl (lt_of_lt_of_eq h2 h1)
  · exact Or.inr ⟨h2.trans h1, h2'.trans h1'⟩

/-- `score_flagged_transactions(flagged, config)`: per-row scoring followed
by the stable two-key descending sort (`sort_values` over multiple columns
is a stable lexsort in pandas). -/
def score_flagged_transactions (flags : List Flag) (cfg : ScoringConfig) : List ScoredFlag :=
  (flags.map (scoreOne cfg)).insertionSort scoredGE

/-! ### Ingestion (`load_transactions`)

A raw CSV cell for a typed column is modelled as an `Option`: `some v` when
the text can be coerced to the target type, `none` when it cannot.
`pd.to_datetime(col)` (default `errors="raise"`) aborts the load on an
uncoercible date; `pd.to_numeric(col, errors="coerce")` maps an uncoercible
numeric to NaN (modelled as `none` in the loaded row) and the load succeeds. -/

/-- A raw CSV row before type coercion. -/
structure RawRow where
  transaction_id : String
  date : Option ℤ
  supplier_id : String
  supplier_name : String
  category : String
  baseline_rate : Option ℚ
  invoice_amount : Option ℚ
  expected_delivery_date : Option ℤ
  actual_delivery_date : Option ℤ
deriving DecidableEq

/-- Load failure on an uncoercible date value (`pd.to_datetime` raising). -/
inductive LoadError where
  | DateTypeError
deriving DecidableEq

/-- A loaded row: dates are coerced (or the batch failed), numeric fields
keep `none` for NaN produced by `errors="coerce"`. -/
structure LoadedRow where
  transaction_id : String
  date : ℤ
  supplier_id : String
  supplier_name : String
  category : String
  baseline_rate : Option ℚ
  invoice_amount : Option ℚ
  expected_delivery_date : ℤ
  actual_delivery_date : ℤ
deriving DecidableEq

/-- Per-row date coercion: fails (propagating the pandas exception) when any
date cell is uncoercible; numeric cells pass through, NaN included. -/
def coerceRow (r : RawRow) : Option LoadedRow :=
  match r.date, r.expected_delivery_date, r.actual_delivery_date with
  | some d, some e, some a =>
      some ⟨r.transaction_id, d, r.supplier_id, r.supplier_name, r.category,
            r.baseline_rate, r.invoice_amount, e, a⟩
  | _, _, _ => none

/-- The type-coercion stage of `load_transactions` (the schema presence
check precedes it and is not modelled here; no claim depends on it). -/
def load_transactions (rows : List RawRow) : Except LoadError (List LoadedRow) :=
  match rows.mapM coerceRow with
  | some l => .ok l
  | none => .error .DateTypeError

/-! ### Helper lemmas: rounding -/

theorem roundHalfEven_ge (q : ℚ) : q - 1/2 ≤ (roundHalfEven q : ℚ) := by
  unfold roundHalfEven
  have h0 : (⌊q⌋ : ℚ) ≤ q := Int.floor_le q
  have h1 : q < ⌊q⌋ + 1 := Int.lt_floor_add_one q
  split_ifs <;> push_cast <;> linarith

theorem roundHalfEven_le (q : ℚ) : (roundHalfEven q : ℚ) ≤ q + 1/2 := by
  unfold roundHalfEven
  have h0 : (⌊q⌋ : ℚ) ≤ q := Int.floor_le q
  have h1 : q < ⌊q⌋ + 1 := Int.lt_floor_add_one q
  split_ifs with hlt hgt <;> push_cast <;> linarith

theorem roundHalfEven_intCast (n : ℤ) : roundHalfEven (n : ℚ) = n := by
  unfold roundHalfEven
  rw [Int.floor_intCast]
  norm_num

/-- If `q < n` for an integer bound `n`, rounding to 2 decimals stays `≤ n`. -/
theorem round2_le_of_lt {q : ℚ} {n : ℤ} (h : q < n) : round2 q ≤ n := by
  unfold round2
  have hk : (roundHalfEven (q * 100) : ℚ) ≤ q * 100 + 1/2 := roundHalfEven_le _
  have h2 : (roundHalfEven (q * 100) : ℚ) < (100 * n : ℤ) + 1 := by push_cast; linarith
  have h3 : roundHalfEven (q * 100) ≤ 100 * n := by exact_mod_cast Int.lt_add_one_iff.mp (by exact_mod_cast h2)
  have h4 : (roundHalfEven (q * 100) : ℚ) ≤ (100 * n : ℤ) := by exact_mod_cast h3
  push_cast at h4 ⊢
  linarith

/-- If `n ≤ q` for an integer bound `n`, rounding to 2 decimals stays `≥ n`. -/
theorem round2_ge_of_le {q : ℚ} {n : ℤ} (h : (n : ℚ) ≤ q) : (n : ℚ) ≤ round2 q := by
  unfold round2
  have hk : q * 100 - 1/2 ≤ (roundHalfEven (q * 100) : ℚ) := roundHalfEven_ge _
  have h2 : ((100 * n : ℤ) : ℚ) - 1 < (roundHalfEven (q * 100) : ℚ) := by push_cast; linarith
  have h3 : 100 * n ≤ roundHalfEven (q * 100) := by
    have := Int.lt_iff_add_one_le.mp (show (100 * n : ℤ) - 1 < roundHalfEven (q * 100) by exact_mod_cast h2)
    omega
  have h4 : ((100 * n : ℤ) : ℚ) ≤ (roundHalfEven (q * 100) : ℚ) := by exact_mod_cast h3
  push_cast at h4 ⊢
  linarith

theorem round2_intCast (n : ℤ) : round2 (n : ℚ) = n := by
  unfold round2
  have : (n : ℚ) * 100 = ((n * 100 : ℤ) : ℚ) := by push_cast; ring
  rw [this, roundHalfEven_intCast]
  push_cast
  ring

/-! ### Claim C4: SLA breach rule -/

/-- C4: for every transaction, the SLA rule flags it iff
`breach_days = (actual - expected) - grace_days > 0`, and each flag's
leakage is `breach_days * 150.00` (a constant of the rule), which the
2-decimal rounding leaves unchanged. -/
theorem sla_breach_rule_correct (txns : List Txn) (grace_days : ℤ) :
    (∀ t ∈ txns,
      (mkSlaFlag grace_days t ∈ detect_sla_breaches txns grace_days ↔
        0 < breachDays grace_days t)) ∧
    (∀ f ∈ detect_sla_breaches txns grace_days,
      f.rule_triggered = "sla_breach" ∧
      f.leakage_amount_gbp = (breachDays grace_days f.txn : ℚ) * 150 ∧
      f.leakage_amount_gbp = round2 ((breachDays grace_days f.txn : ℚ) * 150)) := by
  have hround : ∀ t : Txn, round2 ((breachDays grace_days t : ℚ) * 150) =
      (breachDays grace_days t : ℚ) * 150 := by
    intro t
    have : (breachDays grace_days t : ℚ) * 150 = ((breachDays grace_days t * 150 : ℤ) : ℚ) := by
      push_cast; ring
    rw [this, round2_intCast]
  constructor
  · intro t ht
    constructor
    · intro hmem
      obtain ⟨u, hu, huv⟩ := List.mem_map.mp hmem
      have hut : u = t := congrArg Flag.txn huv
      subst hut
      have := (List.mem_filter.mp hu).2
      simpa using this
    · intro hbr
      exact List.mem_map_of_mem _ (List.mem_filter.mpr ⟨ht, by simpa using hbr⟩)
  · intro f hf
    obtain ⟨u, _, huv⟩ := List.mem_map.mp hf
    subst huv
    exact ⟨rfl, hround u, rfl⟩

/-- C4 witness: expected day 18, actual day 23, grace 0: flagged with
breach 5 and leakage 750; grace 3 on actual day 20: breach is `-1`, not
flagged. -/
theorem sla_breach_rule_correct_witness :
    mkSlaFlag 0 ⟨"TXN-1", 15, "SUP001", "S", "Log", 1000, 1000, 18, 23⟩ ∈
      detect_sla_breaches [⟨"TXN-1", 15, "SUP001", "S", "Log", 1000, 1000, 18, 23⟩] 0 := by
  exact ((sla_breach_rule_correct [⟨"TXN-1", 15, "SUP001", "S", "Log", 1000, 1000, 18, 23⟩] 0).1
    ⟨"TXN-1", 15, "SUP001", "S", "Log", 1000, 1000, 18, 23⟩ (by simp)).mpr (by decide)

/-! ### Claim C2: price variance rule -/

/-- A transaction whose invoice exceeds the threshold-adjusted baseline by
only 0.1 pence: `115.001 / 100 > 1.15`, but the leakage
`115.001 - 100 * 1.15 = 0.001` rounds to `0.00` at 2 decimals. -/
def overByATenthOfAPenny : Txn :=
  ⟨"TXN-EPS", 0, "SUP001", "S", "Log", 100, 115001/1000, 0, 0⟩

/-- C2 counterexample: the rule fires on `overByATenthOfAPenny` (the ratio
strictly exceeds the threshold `1.15`), yet the flag's rounded leakage is
exactly `0`, refuting "always > 0 given the flag condition". -/
theorem price_variance_zero_leakage_counterexample :
    (23/20 : ℚ) < overByATenthOfAPenny.invoice_amount / overByATenthOfAPenny.baseline_rate ∧
    detect_price_variance [overByATenthOfAPenny] (23/20) =
      [⟨overByATenthOfAPenny, "price_variance", 0⟩] ∧
    ¬ (0 : ℚ) < 0 := by
  refine ⟨by norm_num [overByATenthOfAPenny], ?_, by norm_num⟩
  have hflag : mkPriceFlag (23/20) overByATenthOfAPenny =
      ⟨overByATenthOfAPenny, "price_variance", 0⟩ := by
    unfold mkPriceFlag
    have he : overByATenthOfAPenny.invoice_amount -
        overByATenthOfAPenny.baseline_rate * (23/20) = 1/1000 := by
      norm_num [overByATenthOfAPenny]
    rw [he]
    have hr : round2 (1/1000 : ℚ) = 0 := by
      unfold round2 roundHalfEven
      have hf : ⌊(1/1000 : ℚ) * 100⌋ = 0 := by
        rw [Int.floor_eq_zero_iff]
        constructor <;> norm_num
      rw [hf]
      norm_num
    rw [hr]
  unfold detect_price_variance
  have h1 : List.filter
      (fun t => decide ((23/20 : ℚ) < t.invoice_amount / t.baseline_rate))
      [overByATenthOfAPenny] = [overByATenthOfAPenny] := by
    rw [List.filter_cons, List.filter_nil]
    norm_num [overByATenthOfAPenny]
  rw [h1, List.map_cons, List.map_nil, hflag]

/-- C2 (amended): for transactions with positive baseline rate, the rule
flags exactly when `invoice_amount / baseline_rate > threshold` (equality
does not flag), and each flag's leakage is
`round(invoice_amount - baseline_rate * threshold, 2)`, which is `≥ 0`
(the unrounded excess is strictly positive but may round to `0.00`). -/
theorem price_variance_rule_correct (txns : List Txn) (threshold : ℚ)
    (hb : ∀ t ∈ txns, 0 < t.baseline_rate) :
    (∀ t ∈ txns,
      (mkPriceFlag threshold t ∈ detect_price_variance txns threshold ↔
        threshold < t.invoice_amount / t.baseline_rate)) ∧
    (∀ f ∈ detect_price_variance txns threshold,
      f.rule_triggered = "price_variance" ∧
      f.leakage_amount_gbp = round2 (f.txn.invoice_amount - f.txn.baseline_rate * threshold) ∧
      0 < f.txn.invoice_amount - f.txn.baseline_rate * threshold ∧
      0 ≤ f.leakage_amount_gbp) := by
  constructor
  · intro t ht
    constructor
    · intro hmem
      obtain ⟨u, hu, huv⟩ := List.mem_map.mp hmem
      have hut : u = t := congrArg Flag.txn huv
      subst hut
      have := (List.mem_filter.mp hu).2
      simpa using this
    · intro hr
      exact List.mem_map_of_mem _ (List.mem_filter.mpr ⟨ht, by simpa using hr⟩)
  · intro f hf
    obtain ⟨u, hu, huv⟩ := List.mem_map.mp hf
    subst huv
    obtain ⟨humem, hcond⟩ := List.mem_filter.mp hu
    have hratio : threshold < u.invoice_amount / u.baseline_rate := by simpa using hcond
    have hbu : 0 < u.baseline_rate := hb u humem
    have hpos : 0 < u.invoice_amount - u.baseline_rate * threshold := by
      have := (lt_div_iff₀ hbu).mp hratio
      nlinarith
    refine ⟨rfl, rfl, hpos, ?_⟩
    have := round2_ge_of_le (n := 0)
      (q := u.invoice_amount - u.baseline_rate * threshold) (by push_cast; linarith)
    simpa using this

/-- C2 witness: baseline 1000, invoice 1200, threshold 1.15: flagged with
leakage `50.00 > 0`; at invoice 1150 (the exact boundary) the ratio equals
the threshold and the rule does not fire. -/
theorem price_variance_rule_correct_witness :
    (mkPriceFlag (23/20) ⟨"TXN-1", 0, "SUP001", "S", "Log", 1000, 1200, 0, 0⟩ ∈
      detect_price_variance [⟨"TXN-1", 0, "SUP001", "S", "Log", 1000, 1200, 0, 0⟩] (23/20)) ∧
    ¬ (mkPriceFlag (23/20) ⟨"TXN-2", 0, "SUP001", "S", "Log", 1000, 1150, 0, 0⟩ ∈
      detect_price_variance [⟨"TXN-2", 0, "SUP001", "S", "Log", 1000, 1150, 0, 0⟩] (23/20)) := by
  constructor
  · exact ((price_variance_rule_correct
      [⟨"TXN-1", 0, "SUP001", "S", "Log", 1000, 1200, 0, 0⟩] (23/20)
      (by intro t ht; simp at ht; subst ht; norm_num)).1
      ⟨"TXN-1", 0, "SUP001", "S", "Log", 1000, 1200, 0, 0⟩ (by simp)).mpr (by norm_num)
  · intro hmem
    have := ((price_variance_rule_correct
      [⟨"TXN-2", 0, "SUP001", "S", "Log", 1000, 1150, 0, 0⟩] (23/20)
      (by intro t ht; simp at ht; subst ht; norm_num)).1
      ⟨"TXN-2", 0, "SUP001", "S", "Log", 1000, 1150, 0, 0⟩ (by simp)).mp hmem
    norm_num at this

/-! ### Claim C8: aggregation deduplicates on (transaction id, rule) -/

theorem dedupFlagsAux_pairwise (seen : List (String × String)) (l : List Flag) :
    (dedupFlagsAux seen l).Pairwise (fun a b => flagKey a ≠ flagKey b) ∧
    ∀ f ∈ dedupFlagsAux seen l, flagKey f ∉ seen := by
  induction l generalizing seen with
  | nil => simp [dedupFlagsAux]
  | cons f rest ih =>
    by_cases h : flagKey f ∈ seen
    · rw [dedupFlagsAux, if_pos h]
      exact ih seen
    · rw [dedupFlagsAux, if_neg h]
      obtain ⟨hp, hs⟩ := ih (flagKey f :: seen)
      refine ⟨List.Pairwise.cons (fun g hg he => hs g hg (he ▸ List.mem_cons_self _ _)) hp, ?_⟩
      intro g hg
      rcases List.mem_cons.mp hg with rfl | hg'
      · exact h
      · exact fun hgs => hs g hg' (List.mem_cons_of_mem _ hgs)

/-- C8: for every batch and configuration, the aggregated flag set contains
no two entries sharing the same `(transaction_id, rule_triggered)` pair. -/
theorem run_detection_no_duplicate_pairs (txns : List Txn) (cfg : DetectionConfig) :
    (run_detection txns cfg).Pairwise (fun a b => flagKey a ≠ flagKey b) :=
  (dedupFlagsAux_pairwise [] _).1

/-! ### Claim C6: severity classification -/

/-- C6: severity is assigned by descending threshold comparison, inclusive
on the lower edge of each tier, and the assigned severity rank is monotone
non-decreasing in the composite score. -/
theorem severity_bands_monotone (bands : SeverityBands) :
    (∀ s : ℚ,
      (classifySeverity s bands = .Critical ↔ bands.critical ≤ s) ∧
      (classifySeverity s bands = .High ↔ ¬ bands.critical ≤ s ∧ bands.high ≤ s) ∧
      (classifySeverity s bands = .Medium ↔
        ¬ bands.critical ≤ s ∧ ¬ bands.high ≤ s ∧ bands.medium ≤ s) ∧
      (classifySeverity s bands = .Low ↔
        ¬ bands.critical ≤ s ∧ ¬ bands.high ≤ s ∧ ¬ bands.medium ≤ s)) ∧
    (∀ s1 s2 : ℚ, s1 ≤ s2 →
      SEVERITY_ORDER (classifySeverity s1 bands) ≤
        SEVERITY_ORDER (classifySeverity s2 bands)) := by
  constructor
  · intro s
    unfold classifySeverity
    split_ifs with h1 h2 h3 <;> simp_all
  · intro s1 s2 h12
    unfold classifySeverity
    split_ifs <;> simp [SEVERITY_ORDER] <;> linarith

/-- C6 witness: with the default bands (80/60/35), a score of 50 maps no
higher than a score of 90. -/
theorem severity_bands_monotone_witness :
    SEVERITY_ORDER (classifySeverity 50 ⟨80, 60, 35⟩) ≤
      SEVERITY_ORDER (classifySeverity 90 ⟨80, 60, 35⟩) :=
  (severity_bands_monotone ⟨80, 60, 35⟩).2 50 90 (by norm_num)

/-! ### Claim C5: financial score bands and composite range -/

theorem financialImpactScore_nonneg (amount : ℚ) (th : FinThresholds)
    (hl : 0 < th.low_threshold)
    (hlm : th.low_threshold < th.medium_threshold)
    (hmh : th.medium_threshold < th.high_threshold) :
    0 ≤ financialImpactScore amount th := by
  unfold financialImpactScore
  split_ifs with h1 h2 h3 h4
  · norm_num
  · have hq : (0 : ℚ) ≤ 5 + (amount / th.low_threshold) * 5 := by
      have : 0 ≤ amount / th.low_threshold :=
        div_nonneg (le_of_lt (not_le.mp h1)) hl.le
      linarith
    have := round2_ge_of_le (n := 0) (by exact_mod_cast hq)
    simpa using this
  · have hq : (0 : ℚ) ≤ 10 + ((amount - th.low_threshold) /
        (th.medium_threshold - th.low_threshold)) * 10 := by
      have : 0 ≤ (amount - th.low_threshold) /
          (th.medium_threshold - th.low_threshold) :=
        div_nonneg (by linarith [not_lt.mp h2]) (by linarith)
      linarith
    have := round2_ge_of_le (n := 0) (by exact_mod_cast hq)
    simpa using this
  · have hq : (0 : ℚ) ≤ 20 + ((amount - th.medium_threshold) /
        (th.high_threshold - th.medium_threshold)) * 8 := by
      have : 0 ≤ (amount - th.medium_threshold) /
          (th.high_threshold - th.medium_threshold) :=
        div_nonneg (by linarith [not_lt.mp h3]) (by linarith)
      linarith
    have := round2_ge_of_le (n := 0) (by exact_mod_cast hq)
    simpa using this
  · norm_num

/-- C5: the financial score follows the piecewise bands (0 at or below 0;
[5,10] below `low`; [10,20] from `low` to `medium`; [20,28] from `medium`
to `high`; 30 at or above `high`), and the composite score
`min (base + financial) 100` lies within [0, 100] for any leakage amount. -/
theorem financial_score_bands_composite_in_range
    (amount base : ℚ) (th : FinThresholds)
    (hl : 0 < th.low_threshold)
    (hlm : th.low_threshold < th.medium_threshold)
    (hmh : th.medium_threshold < th.high_threshold)
    (hbase : 0 ≤ base) :
    (amount ≤ 0 → financialImpactScore amount th = 0) ∧
    (0 < amount → amount < th.low_threshold →
      5 ≤ financialImpactScore amount th ∧ financialImpactScore amount th ≤ 10) ∧
    (th.low_threshold ≤ amount → amount < th.medium_threshold →
      10 ≤ financialImpactScore amount th ∧ financialImpactScore amount th ≤ 20) ∧
    (th.medium_threshold ≤ amount → amount < th.high_threshold →
      20 ≤ financialImpactScore amount th ∧ financialImpactScore amount th ≤ 28) ∧
    (th.high_threshold ≤ amount → financialImpactScore amount th = 30) ∧
    0 ≤ min (base + financialImpactScore amount th) 100 ∧
    min (base + financialImpactScore amount th) 100 ≤ 100 := by
  refine ⟨?_, ?_, ?_, ?_, ?_, ?_, min_le_right _ _⟩
  · intro h
    unfold financialImpactScore
    rw [if_pos h]
  · intro h0 h2
    unfold financialImpactScore
    rw [if_neg (not_le.mpr h0), if_pos h2]
    have hx0 : 0 ≤ amount / th.low_threshold := div_nonneg h0.le hl.le
    have hx1 : amount / th.low_threshold < 1 := (div_lt_one hl).mpr h2
    constructor
    · have := round2_ge_of_le (n := 5)
        (q := 5 + (amount / th.low_threshold) * 5) (by push_cast; linarith)
      simpa using this
    · have := round2_le_of_lt (n := 10)
        (q := 5 + (amount / th.low_threshold) * 5) (by push_cast; linarith)
      simpa using this
  · intro hge hlt
    unfold financialImpactScore
    rw [if_neg (not_le.mpr (lt_of_lt_of_le hl hge)), if_neg (not_lt.mpr hge), if_pos hlt]
    have hden : (0 : ℚ) < th.medium_threshold - th.low_threshold := by linarith
    have hx0 : 0 ≤ (amount - th.low_threshold) / (th.medium_threshold - th.low_threshold) :=
      div_nonneg (by linarith) hden.le
    have hx1 : (amount - th.low_threshold) / (th.medium_threshold - th.low_threshold) < 1 :=
      (div_lt_one hden).mpr (by linarith)
    constructor
    · have := round2_ge_of_le (n := 10)
        (q := 10 + ((amount - th.low_threshold) /
          (th.medium_threshold - th.low_threshold)) * 10) (by push_cast; linarith)
      simpa using this
    · have := round2_le_of_lt (n := 20)
        (q := 10 + ((amount - th.low_threshold) /
          (th.medium_threshold - th.low_threshold)) * 10) (by push_cast; linarith)
      simpa using this
  · intro hge hlt
    unfold financialImpactScore
    rw [if_neg (not_le.mpr (by linarith : (0:ℚ) < amount)),
      if_neg (not_lt.mpr (by linarith : th.low_threshold ≤ amount)),
      if_neg (not_lt.mpr hge), if_pos hlt]
    have hden : (0 : ℚ) < th.high_threshold - th.medium_threshold := by linarith
    have hx0 : 0 ≤ (amount - th.medium_threshold) / (th.high_threshold - th.medium_threshold) :=
      div_nonneg (by linarith) hden.le
    have hx1 : (amount - th.medium_threshold) / (th.high_threshold - th.medium_threshold) < 1 :=
      (div_lt_one hden).mpr (by linarith)
    constructor
    · have := round2_ge_of_le (n := 20)
        (q := 20 + ((amount - th.medium_threshold) /
          (th.high_threshold - th.medium_threshold)) * 8) (by push_cast; linarith)
      simpa using this
    · have := round2_le_of_lt (n := 28)
        (q := 20 + ((amount - th.medium_threshold) /
          (th.high_threshold - th.medium_threshold)) * 8) (by push_cast; linarith)
      simpa using this
  · intro hge
    unfold financialImpactScore
    rw [if_neg (not_le.mpr (by linarith : (0:ℚ) < amount)),
      if_neg (not_lt.mpr (by linarith : th.low_threshold ≤ amount)),
      if_neg (not_lt.mpr (by linarith : th.medium_threshold ≤ amount)),
      if_neg (not_lt.mpr hge)]
  · exact le_min (add_nonneg hbase (financialImpactScore_nonneg amount th hl hlm hmh))
      (by norm_num)

/-- C5 witness: default thresholds (500/2000/10000), amount 100 in the
lowest positive band, base score 30. -/
theorem financial_score_bands_composite_in_range_witness :
    5 ≤ financialImpactScore 100 ⟨500, 2000, 10000⟩ ∧
    financialImpactScore 100 ⟨500, 2000, 10000⟩ ≤ 10 ∧
    0 ≤ min ((30 : ℚ) + financialImpactScore 100 ⟨500, 2000, 10000⟩) 100 ∧
    min ((30 : ℚ) + financialImpactScore 100 ⟨500, 2000, 10000⟩) 100 ≤ 100 := by
  obtain ⟨-, hband, -, -, -, hlo, hhi⟩ :=
    financial_score_bands_composite_in_range 100 30 ⟨500, 2000, 10000⟩
      (by norm_num) (by norm_num) (by norm_num) (by norm_num)
  obtain ⟨h5, h10⟩ := hband (by norm_num) (by norm_num)
  exact ⟨h5, h10, hlo, hhi⟩

/-! ### Claim C9: ingestion of uncoercible values -/

/-- A raw row whose `invoice_amount` cell cannot be coerced to a number
(e.g. the text "abc"); every date cell is valid. -/
def rowWithBadInvoice : RawRow :=
  ⟨"TXN-BAD", some 15, "SUP001", "S", "Log", some 100, none, some 18, some 19⟩

/-- C9: the code does NOT fail the batch on an uncoercible numeric value:
`pd.to_numeric(..., errors="coerce")` turns it into NaN and
`load_transactions` succeeds, so the unusable value propagates into the
validated collection (contradicting the documented DataTypeError intent). -/
theorem load_transactions_accepts_uncoercible_numeric :
    load_transactions [rowWithBadInvoice] =
      .ok [⟨"TXN-BAD", 15, "SUP001", "S", "Log", some 100, none, 18, 19⟩] ∧
    rowWithBadInvoice.invoice_amount = none := by
  constructor
  · rfl
  · rfl

/-! ### Claims C1 and C10: duplicate rule -/

/-- Completeness of the flagged-id scan: an element of the sorted list with
an in-window same-key predecessor (in `prev` or earlier in the list) is
recorded. -/
theorem mem_dupFlaggedIdsAux_of_earlier (w : ℤ) (a : List Txn) :
    ∀ (prev : List Txn) (t : Txn) (b : List Txn),
      (∃ p ∈ prev ++ a, dupWithin w p t) →
      t.transaction_id ∈ dupFlaggedIdsAux w prev (a ++ t :: b) := by
  induction a with
  | nil =>
    intro prev t b hex
    rw [List.append_nil] at hex
    rw [List.nil_append, dupFlaggedIdsAux, if_pos hex]
    exact List.mem_cons_self _ _
  | cons x a' ih =>
    intro prev t b hex
    have hex' : ∃ p ∈ (prev ++ [x]) ++ a', dupWithin w p t := by
      obtain ⟨p, hp, hw⟩ := hex
      exact ⟨p, by rw [List.append_assoc]; exact hp, hw⟩
    have hmem := ih (prev ++ [x]) t b hex'
    rw [List.cons_append, dupFlaggedIdsAux]
    split_ifs with hc
    · exact List.mem_cons_of_mem _ hmem
    · exact hmem

/-- Soundness of the flagged-id scan: every recorded id belongs to an
element with an in-window same-key predecessor. -/
theorem of_mem_dupFlaggedIdsAux (w : ℤ) (l : List Txn) :
    ∀ (prev : List Txn) (i : String),
      i ∈ dupFlaggedIdsAux w prev l →
      ∃ a t b, l = a ++ t :: b ∧ i = t.transaction_id ∧
        ∃ p ∈ prev ++ a, dupWithin w p t := by
  induction l with
  | nil => intro prev i h; rw [dupFlaggedIdsAux] at h; simp at h
  | cons x rest ih =>
    intro prev i hmem
    rw [dupFlaggedIdsAux] at hmem
    split_ifs at hmem with hc
    · rcases List.mem_cons.mp hmem with he | hm
      · exact ⟨[], x, rest, by simp, he, by rw [List.append_nil]; exact hc⟩
      · obtain ⟨a, t, b, hl, hid, p, hp, hw⟩ := ih (prev ++ [x]) i hm
        exact ⟨x :: a, t, b, by rw [hl]; rfl, hid,
          p, by rw [List.append_assoc] at hp; exact hp, hw⟩
    · obtain ⟨a, t, b, hl, hid, p, hp, hw⟩ := ih (prev ++ [x]) i hmem
      exact ⟨x :: a, t, b, by rw [hl]; rfl, hid,
        p, by rw [List.append_assoc] at hp; exact hp, hw⟩

theorem sortByDate_perm (txns : List Txn) : List.Perm (sortByDate txns) txns :=
  List.perm_insertionSort dateLe txns

theorem sortByDate_sorted (txns : List Txn) : (sortByDate txns).Sorted dateLe :=
  List.sorted_insertionSort dateLe txns

/-- C1: in every batch with unique transaction ids, (i) for every ordered
pair (earlier, later) sharing supplier id and rounded invoice amount with
absolute day difference ≤ `window_days`, the later transaction receives a
duplicate flag; (ii) a transaction whose same-key group mates inside the
window are all strictly later — the earliest of any matching chain, not
only the group minimum — is never flagged; (iii) every duplicate flag
carries the flagged transaction's own invoice amount as leakage. -/
theorem duplicate_rule_correct (txns : List Txn) (w : ℤ)
    (hids : txns.Pairwise fun a b => a.transaction_id ≠ b.transaction_id) :
    (∀ t1 ∈ txns, ∀ t2 ∈ txns,
      t1.supplier_id = t2.supplier_id → amountKey t1 = amountKey t2 →
      t1.date < t2.date → |t2.date - t1.date| ≤ w →
      mkDupFlag t2 ∈ detect_duplicates txns w) ∧
    (∀ t ∈ txns,
      (∀ u ∈ txns, u ≠ t → dupKey u = dupKey t → |t.date - u.date| ≤ w → t.date < u.date) →
      ∀ f ∈ detect_duplicates txns w, f.txn ≠ t) ∧
    (∀ f ∈ detect_duplicates txns w,
      f.rule_triggered = "duplicate" ∧
      f.leakage_amount_gbp = f.txn.invoice_amount) := by
  have hperm := sortByDate_perm txns
  have hsorted := sortByDate_sorted txns
  refine ⟨?_, ?_, ?_⟩
  · intro t1 h1 t2 h2 hsup hamt hdate habs
    have h2s : t2 ∈ sortByDate txns := hperm.mem_iff.mpr h2
    obtain ⟨a, b, hab⟩ := List.append_of_mem h2s
    have h1s : t1 ∈ sortByDate txns := hperm.mem_iff.mpr h1
    rw [hab] at h1s
    have h1a : t1 ∈ a := by
      rcases List.mem_append.mp h1s with h | h
      · exact h
      · rcases List.mem_cons.mp h with he | hb
        · exfalso
          rw [he] at hdate
          exact lt_irrefl _ hdate
        · exfalso
          have hpw : (a ++ t2 :: b).Pairwise dateLe := by
            rw [← hab]; exact hsorted
          have := (List.pairwise_append.mp hpw).2.1
          have hle : dateLe t2 t1 := (List.pairwise_cons.mp this).1 t1 hb
          exact absurd hdate (not_lt.mpr hle)
    have hkey : dupKey t1 = dupKey t2 := by
      unfold dupKey
      rw [hsup, hamt]
    have hin : t2.transaction_id ∈ dupFlaggedIds txns w := by
      unfold dupFlaggedIds
      rw [hab]
      exact mem_dupFlaggedIdsAux_of_earlier w a [] t2 b ⟨t1, by simpa using h1a, hkey, habs⟩
    exact List.mem_map_of_mem _ (List.mem_filter.mpr ⟨h2, by simpa using hin⟩)
  · intro t ht hmin f hf hft
    obtain ⟨u, hu, huv⟩ := List.mem_map.mp hf
    have hut : u = t := by
      have h1 : u = f.txn := congrArg Flag.txn huv
      rw [h1, hft]
    rw [hut] at hu
    obtain ⟨-, hcond⟩ := List.mem_filter.mp hu
    have hidin : t.transaction_id ∈ dupFlaggedIds txns w := by simpa using hcond
    unfold dupFlaggedIds at hidin
    obtain ⟨a, v, b, hl, hid, p, hp, hkey, habs⟩ :=
      of_mem_dupFlaggedIdsAux w (sortByDate txns) [] t.transaction_id hidin
    rw [List.nil_append] at hp
    have hvs : v ∈ sortByDate txns := by rw [hl]; simp
    have hv_txns : v ∈ txns := hperm.mem_iff.mp hvs
    have hvt : v = t := by
      by_contra hne
      have hsym : Symmetric fun a b : Txn => a.transaction_id ≠ b.transaction_id :=
        fun _ _ h => h.symm
      exact (hids.forall hsym hv_txns ht hne) hid.symm
    subst hvt
    have hps : p ∈ sortByDate txns := by rw [hl]; exact List.mem_append_left _ hp
    have hp_txns : p ∈ txns := hperm.mem_iff.mp hps
    have hnodup : txns.Nodup :=
      hids.imp fun h => by intro he; exact h (he ▸ rfl)
    have hnodup_s : (sortByDate txns).Nodup := hperm.nodup_iff.mpr hnodup
    have hpv : p ≠ v := by
      intro he
      rw [he] at hp
      rw [hl] at hnodup_s
      obtain ⟨-, -, hdisj⟩ := List.nodup_append.mp hnodup_s
      exact hdisj hp (List.mem_cons_self _ _)
    have hlate : v.date < p.date := hmin p hp_txns hpv hkey habs
    have hpw : (a ++ v :: b).Pairwise dateLe := by rw [← hl]; exact hsorted
    have hle : dateLe p v :=
      (List.pairwise_append.mp hpw).2.2 p hp v (List.mem_cons_self _ _)
    exact absurd hlate (not_lt.mpr hle)
  · intro f hf
    obtain ⟨u, -, huv⟩ := List.mem_map.mp hf
    subst huv
    exact ⟨rfl, rfl⟩

/-- C1 witness: the spec's example — supplier SUP001, amount 1000.00,
dates day 15 and day 16, window 1: the day-16 transaction is flagged with
leakage 1000. -/
theorem duplicate_rule_correct_witness :
    mkDupFlag ⟨"TXN-002", 16, "SUP001", "S", "Log", 1000, 1000, 18, 18⟩ ∈
      detect_duplicates
        [⟨"TXN-001", 15, "SUP001", "S", "Log", 1000, 1000, 18, 18⟩,
         ⟨"TXN-002", 16, "SUP001", "S", "Log", 1000, 1000, 18, 18⟩] 1 := by
  exact (duplicate_rule_correct
      [⟨"TXN-001", 15, "SUP001", "S", "Log", 1000, 1000, 18, 18⟩,
       ⟨"TXN-002", 16, "SUP001", "S", "Log", 1000, 1000, 18, 18⟩] 1
      (by simp)).1
    ⟨"TXN-001", 15, "SUP001", "S", "Log", 1000, 1000, 18, 18⟩ (by simp)
    ⟨"TXN-002", 16, "SUP001", "S", "Log", 1000, 1000, 18, 18⟩ (by simp)
    rfl rfl (by norm_num) (by norm_num)

/-! ### Claim C7: final ordering of scored output -/

/-- The sort key of the final ordering: `(severity_rank, leakage_amount_gbp)`,
both compared descending. -/
def scoredKey (s : ScoredFlag) : ℕ × ℚ := (s.severity_rank, s.flag.leakage_amount_gbp)

theorem scoredKey_ne_of_not_ge {a b : ScoredFlag} (h : ¬ scoredGE a b) :
    scoredKey b ≠ scoredKey a := by
  intro he
  unfold scoredKey at he
  obtain ⟨h1, h2⟩ := Prod.ext_iff.mp he
  exact h (Or.inr ⟨h1, le_of_eq h2⟩)

theorem filter_orderedInsert_of_pos {α : Type*} (r : α → α → Prop) [DecidableRel r]
    (p : α → Bool) (x : α) :
    ∀ l : List α, p x = true → (∀ y ∈ l, ¬ r x y → p y = false) →
      (List.orderedInsert r x l).filter p = x :: l.filter p := by
  intro l
  induction l with
  | nil => intro hx _; simp [List.orderedInsert, hx]
  | cons y ys ih =>
    intro hx hcomp
    rw [List.orderedInsert]
    split_ifs with hr
    · simp [List.filter_cons, hx]
    · have hpy : p y = false := hcomp y (List.mem_cons_self _ _) hr
      have hpy' : ¬ (p y = true) := by simp [hpy]
      rw [List.filter_cons_of_neg hpy', List.filter_cons_of_neg hpy']
      exact ih hx fun z hz => hcomp z (List.mem_cons_of_mem _ hz)

theorem filter_orderedInsert_of_neg {α : Type*} (r : α → α → Prop) [DecidableRel r]
    (p : α → Bool) (x : α) :
    ∀ l : List α, p x = false → (List.orderedInsert r x l).filter p = l.filter p := by
  intro l
  induction l with
  | nil => intro hx; simp [List.orderedInsert, hx]
  | cons y ys ih =>
    intro hx
    rw [List.orderedInsert]
    split_ifs with hr
    · simp [List.filter_cons, hx]
    · rw [List.filter_cons, List.filter_cons, ih hx]

/-- Stability of `insertionSort` through the lens of a sort key: filtering
on any key class commutes with sorting, provided incomparability in the
sort order forces distinct keys. -/
theorem filter_insertionSort_of_key {α β : Type*} (r : α → α → Prop) [DecidableRel r]
    [DecidableEq β] (κ : α → β)
    (hne : ∀ x y : α, ¬ r x y → κ y ≠ κ x) (c : β) :
    ∀ l : List α,
      ((l.insertionSort r).filter fun s => decide (κ s = c)) =
        l.filter fun s => decide (κ s = c) := by
  intro l
  induction l with
  | nil => rfl
  | cons x xs ih =>
    rw [List.insertionSort]
    by_cases hx : κ x = c
    · rw [filter_orderedInsert_of_pos r _ x _ (by simp [hx]) ?_]
      · rw [ih, List.filter_cons]
        simp [hx]
      · intro y hy hnr
        have hne' : κ y ≠ κ x := hne x y hnr
        rw [hx] at hne'
        exact decide_eq_false hne'
    · rw [filter_orderedInsert_of_neg r _ x _ (by simp [hx]), ih,
        List.filter_cons]
      simp [hx]

theorem filter_insertionSort_scoredKey (c : ℕ × ℚ) :
    ∀ l : List ScoredFlag,
      ((l.insertionSort scoredGE).filter fun s => decide (scoredKey s = c)) =
        l.filter fun s => decide (scoredKey s = c) :=
  filter_insertionSort_of_key scoredGE scoredKey
    (fun _ _ h => scoredKey_ne_of_not_ge h) c

/-- C7: the scored output is sorted by severity rank descending then
leakage descending, is a permutation of the per-row scored input, and is
stable: for every key `(severity_rank, leakage)` the subsequence of flags
carrying that key is byte-identical (same elements, same relative order) to
the corresponding subsequence before sorting. -/
theorem scored_output_sorted_and_stable (flags : List Flag) (cfg : ScoringConfig) :
    (score_flagged_transactions flags cfg).Pairwise scoredGE ∧
    List.Perm (score_flagged_transactions flags cfg) (flags.map (scoreOne cfg)) ∧
    (∀ c : ℕ × ℚ,
      ((score_flagged_transactions flags cfg).filter fun s => decide (scoredKey s = c)) =
        (flags.map (scoreOne cfg)).filter fun s => decide (scoredKey s = c)) :=
  ⟨List.sorted_insertionSort scoredGE _,
   List.perm_insertionSort scoredGE _,
   fun c => filter_insertionSort_scoredKey c _⟩

/-! ### Claim C3: volume spike rule -/

theorem listSampleVar_nonneg (l : List ℚ) (h : 3 ≤ l.length) : 0 ≤ listSampleVar l := by
  unfold listSampleVar
  apply div_nonneg
  · apply List.sum_nonneg
    intro x hx
    obtain ⟨y, -, rfl⟩ := List.mem_map.mp hx
    positivity
  · have h3 : (3 : ℚ) ≤ (l.length : ℚ) := by exact_mod_cast h
    linarith

/-- The square-root-free spike test agrees with
`count > mean + sigma * std` over the reals, for `sigma ≥ 0` and a
nonnegative variance. -/
theorem spike_condition_iff (c μ v sigma : ℚ) (hs : 0 ≤ sigma) (hv : 0 ≤ v) :
    (μ < c ∧ sigma ^ 2 * v < (c - μ) ^ 2) ↔
      ((μ : ℝ) + (sigma : ℝ) * Real.sqrt (v : ℝ) < (c : ℝ)) := by
  have hv' : (0 : ℝ) ≤ (v : ℝ) := by exact_mod_cast hv
  have hs' : (0 : ℝ) ≤ (sigma : ℝ) := by exact_mod_cast hs
  have hsv : (0 : ℝ) ≤ (sigma : ℝ) * Real.sqrt (v : ℝ) :=
    mul_nonneg hs' (Real.sqrt_nonneg _)
  constructor
  · rintro ⟨h1, h2⟩
    have h1' : (μ : ℝ) < (c : ℝ) := by exact_mod_cast h1
    have h2' : (sigma : ℝ) ^ 2 * (v : ℝ) < ((c : ℝ) - (μ : ℝ)) ^ 2 := by
      exact_mod_cast h2
    have hsq : Real.sqrt ((sigma : ℝ) ^ 2 * (v : ℝ)) <
        Real.sqrt (((c : ℝ) - (μ : ℝ)) ^ 2) :=
      Real.sqrt_lt_sqrt (by positivity) h2'
    rw [Real.sqrt_mul (sq_nonneg _), Real.sqrt_sq hs',
      Real.sqrt_sq (by linarith : (0 : ℝ) ≤ (c : ℝ) - (μ : ℝ))] at hsq
    linarith
  · intro h
    have hd : (0 : ℝ) < (c : ℝ) - (μ : ℝ) := by linarith
    have h1 : μ < c := by
      have : (μ : ℝ) < (c : ℝ) := by linarith
      exact_mod_cast this
    have hlt : (sigma : ℝ) * Real.sqrt (v : ℝ) < (c : ℝ) - (μ : ℝ) := by linarith
    have key : ((sigma : ℝ) * Real.sqrt (v : ℝ)) * ((sigma : ℝ) * Real.sqrt (v : ℝ)) <
        ((c : ℝ) - (μ : ℝ)) * ((c : ℝ) - (μ : ℝ)) :=
      mul_self_lt_mul_self hsv hlt
    have hvv : Real.sqrt (v : ℝ) * Real.sqrt (v : ℝ) = (v : ℝ) :=
      Real.mul_self_sqrt hv'
    have h2 : (sigma : ℝ) ^ 2 * (v : ℝ) < ((c : ℝ) - (μ : ℝ)) ^ 2 := by
      nlinarith [key, hvv]
    exact ⟨h1, by exact_mod_cast h2⟩

theorem spikeAt_eq_true_iff (counts : List ℚ) (sigma : ℚ) (window k : ℕ) :
    spikeAt counts sigma window k = true ↔
      3 ≤ (priorsAt counts window k).length ∧
      listMean (priorsAt counts window k) < counts.getD k 0 ∧
      sigma ^ 2 * listSampleVar (priorsAt counts window k) <
        (counts.getD k 0 - listMean (priorsAt counts window k)) ^ 2 := by
  unfold spikeAt
  simp [Bool.and_eq_true, decide_eq_true_eq, and_assoc]

theorem sortedDays_nodup (txns : List Txn) : (sortedDays txns).Nodup := by
  unfold sortedDays
  exact (List.perm_insertionSort _ _).nodup_iff.mpr (List.nodup_dedup _)

/-- C3: for every batch and parameters with `sigma ≥ 0` (as every meaningful
configuration is), (i) a transaction is flagged iff its date is a spike
date, (ii) every volume-spike flag has leakage 0, (iii) a row with fewer
than 3 prior days of history is never a spike, (iv) the spike test holds
exactly when the day's count strictly exceeds
`rolling mean + sigma * rolling standard deviation` (over ℝ, with the
sample standard deviation of the prior-window counts), and (v) the k-th
distinct day is a spike date exactly when the spike test passes at row k. -/
theorem volume_spike_rule_correct (txns : List Txn) (sigma : ℚ) (window : ℕ)
    (hsig : 0 ≤ sigma) :
    (∀ t ∈ txns,
      (mkSpikeFlag t ∈ detect_volume_spikes txns sigma window ↔
        t.date ∈ spikeDates txns sigma window)) ∧
    (∀ f ∈ detect_volume_spikes txns sigma window,
      f.rule_triggered = "volume_spike" ∧ f.leakage_amount_gbp = 0) ∧
    (∀ k : ℕ, (priorsAt (dailyCounts txns) window k).length < 3 →
      spikeAt (dailyCounts txns) sigma window k = false) ∧
    (∀ k : ℕ,
      spikeAt (dailyCounts txns) sigma window k = true ↔
        3 ≤ (priorsAt (dailyCounts txns) window k).length ∧
        ((listMean (priorsAt (dailyCounts txns) window k) : ℝ) +
          (sigma : ℝ) *
            Real.sqrt ((listSampleVar (priorsAt (dailyCounts txns) window k) : ℝ)) <
          ((dailyCounts txns).getD k 0 : ℝ))) ∧
    (∀ k : ℕ, k < (sortedDays txns).length →
      ((sortedDays txns).getD k 0 ∈ spikeDates txns sigma window ↔
        spikeAt (dailyCounts txns) sigma window k = true)) := by
  refine ⟨?_, ?_, ?_, ?_, ?_⟩
  · intro t ht
    constructor
    · intro hmem
      obtain ⟨u, hu, huv⟩ := List.mem_map.mp hmem
      have hut : u = t := congrArg Flag.txn huv
      subst hut
      have := (List.mem_filter.mp hu).2
      simpa using this
    · intro hd
      exact List.mem_map_of_mem _ (List.mem_filter.mpr ⟨ht, by simpa using hd⟩)
  · intro f hf
    obtain ⟨u, -, huv⟩ := List.mem_map.mp hf
    subst huv
    exact ⟨rfl, rfl⟩
  · intro k hk
    unfold spikeAt
    have hd : decide (3 ≤ (priorsAt (dailyCounts txns) window k).length) = false :=
      decide_eq_false (not_le.mpr hk)
    rw [hd, Bool.false_and, Bool.false_and]
  · intro k
    rw [spikeAt_eq_true_iff]
    constructor
    · rintro ⟨hlen, h1, h2⟩
      exact ⟨hlen, (spike_condition_iff _ _ _ _ hsig
        (listSampleVar_nonneg _ hlen)).mp ⟨h1, h2⟩⟩
    · rintro ⟨hlen, hr⟩
      obtain ⟨h1, h2⟩ := (spike_condition_iff _ _ _ _ hsig
        (listSampleVar_nonneg _ hlen)).mpr hr
      exact ⟨hlen, h1, h2⟩
  · intro k hk
    constructor
    · intro hmem
      obtain ⟨j, hj, hjk⟩ := List.mem_map.mp hmem
      obtain ⟨hjr, hjs⟩ := List.mem_filter.mp hj
      have hjlen : j < (sortedDays txns).length := List.mem_range.mp hjr
      have hjk' : (sortedDays txns).get ⟨j, hjlen⟩ = (sortedDays txns).get ⟨k, hk⟩ := by
        rw [← List.getD_eq_get _ 0 hjlen, ← List.getD_eq_get _ 0 hk]
        exact hjk
      have hji : j = k := by
        have := List.nodup_iff_injective_get.mp (sortedDays_nodup txns) hjk'
        exact congrArg Fin.val this
      rw [← hji]
      simpa using hjs
    · intro hs
      apply List.mem_map_of_mem
      exact List.mem_filter.mpr ⟨List.mem_range.mpr hk, by simpa using hs⟩

/-- C3 witness: at the default parameters (sigma 2, window 14), the first
row of any batch has no prior history, so it can never be a spike day —
here on a one-transaction batch. -/
theorem volume_spike_rule_correct_witness :
    spikeAt (dailyCounts [⟨"T-1", 0, "S", "S", "C", 1, 1, 0, 0⟩]) 2 14 0 = false :=
  (volume_spike_rule_correct [⟨"T-1", 0, "S", "S", "C", 1, 1, 0, 0⟩] 2 14
    (by norm_num)).2.2.1 0 (by simp [priorsAt])

/-! ### Claim C10: same-day duplicate pairs -/

end CostLeakage
